import Mathlib

/-!
# Verification of the github-cms repository content synchronization engine

This file gives a shallow embedding, in Lean 4, of the core modules of the
github-cms repository:

* `src/lib/github.ts` — the `GitHubService` class (fetch, single-file commit,
  multi-file commit, directory listing) over the GitHub REST store;
* `src/lib/config.ts` — environment configuration and its validation;
* the markdown utility module (`parseMarkdown`/`sanitizeHTML`/`markdownToHTML`/
  `extractMarkdownTitle`);
* the API route handlers (`/api/github/publish` POST and PUT,
  `/api/github/list` GET), restricted to their control flow around
  configuration validation, argument validation, and service calls.

The remote GitHub store is modelled as an explicit state (`Store`) holding the
Contents-API view (path → file/directory response) and the git object graph
(refs, commits, trees, blobs).  Each Octokit endpoint used by the source is a
function from `Store` to `Except OctoErr` results; transport and
authentication failures are modelled by the `online`/`authOk` flags checked by
every endpoint.  Service methods additionally return the list of store
operations they issued (`StoreOp` trace) and the resulting store, and take an
`interfere : Store → Store` parameter that is applied at the single point
between their read phase and their final write, modelling a concurrent writer
racing between those two steps (pass `id` for the uncontended run).

Machine-level details that no claim depends on are abstracted: base64
transport encoding of file contents (contents are carried verbatim), object
ids (content-addressed hashes become freshly allocated `Nat`s), and dates
(carried as opaque preformatted strings).
-/

/-! ## The store model -/

/-- Outcome of a raw Octokit call: a transport (network) failure, or an HTTP
error status from the store.  `getFileSha` in the source distinguishes
status 404 from everything else; all other call sites only distinguish
success from failure. -/
inductive OctoErr where
  | network
  | http (status : Nat)
deriving DecidableEq, Repr

/-- JavaScript `String.prototype.startsWith`, embedded over the character
lists (Lean's own `String.startsWith` does not reduce in the kernel). -/
def strStartsWith (s pre : String) : Bool :=
  pre.data.isPrefixOf s.data

/-- JavaScript `String.prototype.endsWith`, embedded over the character
lists. -/
def strEndsWith (s post : String) : Bool :=
  post.data.reverse.isPrefixOf s.data.reverse

/-- One entry of a directory listing returned by the Contents API.
(`itemType` embeds the source field `type`, a Lean keyword.) -/
structure DirItem where
  name : String
  path : String
  itemType : String
deriving DecidableEq, Repr

/-- A Contents-API response: a file (with its content and blob sha, the
concurrency token) or a directory listing. -/
inductive ContentResp where
  | file (content : String) (sha : String)
  | dir (items : List DirItem)
deriving DecidableEq, Repr

/-- One entry of a git tree.  (`entryType` embeds the source field `type`.) -/
structure TreeEntry where
  path : String
  mode : String
  entryType : String
  sha : Nat
deriving DecidableEq, Repr

/-- A git commit object: its root tree and its parent commits. -/
structure CommitObj where
  tree : Nat
  parents : List Nat
deriving DecidableEq, Repr

/-- The remote store state: the Contents-API view for the configured branch,
the git object graph, a fresh-id counter for newly created objects, and the
transport/authentication health flags. -/
structure Store where
  contents : List (String × ContentResp)
  branches : List (String × Nat)
  commits : List (Nat × CommitObj)
  trees : List (Nat × List TreeEntry)
  blobs : List (Nat × String)
  nextId : Nat
  online : Bool
  authOk : Bool
deriving DecidableEq, Repr

/-- Every endpoint first crosses the transport and the authentication layer:
offline yields a network error, bad credentials yield HTTP 401. -/
def Store.check (s : Store) : Except OctoErr Unit :=
  if !s.online then .error .network
  else if !s.authOk then .error (.http 401)
  else .ok ()

/-- Octokit `repos.getContent`: the file or directory at a path, HTTP 404 when
the path resolves to nothing. -/
def getContent (s : Store) (path : String) : Except OctoErr ContentResp :=
  match s.check with
  | .error e => .error e
  | .ok _ =>
    match s.contents.lookup path with
    | some r => .ok r
    | none => .error (.http 404)

/-- Replace (or create) the Contents-API entry at a path. -/
def setContent (l : List (String × ContentResp)) (p : String) (r : ContentResp) :
    List (String × ContentResp) :=
  (p, r) :: l.filter (fun e => e.1 ≠ p)

/-- Octokit `repos.createOrUpdateFileContents`: compare-and-swap write of one
file.  Updating an existing file demands the caller's `sha` equal the live
blob sha (HTTP 409 on mismatch, HTTP 422 when absent); creating a new file
demands no `sha` be sent (HTTP 422 otherwise).  On success the file's new sha
is freshly allocated. -/
def putFileContents (s : Store) (path content : String) (sha : Option String) :
    Except OctoErr Store :=
  match s.check with
  | .error e => .error e
  | .ok _ =>
    match s.contents.lookup path with
  | some (.file _ cur) =>
      match sha with
      | some t =>
          if t = cur then
            .ok { s with
                  contents := setContent s.contents path (.file content (toString s.nextId)),
                  nextId := s.nextId + 1 }
          else .error (.http 409)
      | none => .error (.http 422)
  | some (.dir _) => .error (.http 422)
  | none =>
      match sha with
      | some _ => .error (.http 422)
      | none =>
          .ok { s with
                contents := setContent s.contents path (.file content (toString s.nextId)),
                nextId := s.nextId + 1 }

/-- Octokit `git.getRef`: the commit id a ref currently points at. -/
def getRef (s : Store) (ref : String) : Except OctoErr Nat :=
  match s.check with
  | .error e => .error e
  | .ok _ =>
    match s.branches.lookup ref with
    | some sha => .ok sha
    | none => .error (.http 404)

/-- Octokit `git.getCommit`. -/
def getCommit (s : Store) (sha : Nat) : Except OctoErr CommitObj :=
  match s.check with
  | .error e => .error e
  | .ok _ =>
    match s.commits.lookup sha with
    | some c => .ok c
    | none => .error (.http 404)

/-- Octokit `git.createBlob`: store the content, return the fresh blob id. -/
def createBlob (s : Store) (content : String) : Except OctoErr (Nat × Store) :=
  match s.check with
  | .error e => .error e
  | .ok _ =>
    .ok (s.nextId,
         { s with blobs := s.blobs ++ [(s.nextId, content)], nextId := s.nextId + 1 })

/-- Applying one overlay entry to a base tree: any existing entry at the same
path is replaced. -/
def overlayEntry (base : List TreeEntry) (e : TreeEntry) : List TreeEntry :=
  base.filter (fun b => b.path ≠ e.path) ++ [e]

/-- Octokit `git.createTree` with `base_tree`: the new tree is the base tree
with each supplied entry overlaid in order. -/
def createTree (s : Store) (base : Nat) (entries : List TreeEntry) :
    Except OctoErr (Nat × Store) :=
  match s.check with
  | .error e => .error e
  | .ok _ =>
    match s.trees.lookup base with
  | some baseEntries =>
      .ok (s.nextId,
           { s with
             trees := s.trees ++ [(s.nextId, entries.foldl overlayEntry baseEntries)],
             nextId := s.nextId + 1 })
  | none => .error (.http 404)

/-- Octokit `git.createCommit`. -/
def createCommit (s : Store) (message : String) (tree : Nat) (parents : List Nat) :
    Except OctoErr (Nat × Store) :=
  match s.check with
  | .error e => .error e
  | .ok _ =>
    .ok (s.nextId,
         { s with commits := s.commits ++ [(s.nextId, ⟨tree, parents⟩)], nextId := s.nextId + 1 })

/-- Is `anc` reachable from commit `c` through parent edges (`fuel` bounds the
walk). -/
def isAncestor (commits : List (Nat × CommitObj)) : Nat → Nat → Nat → Bool
  | 0, _, _ => false
  | fuel + 1, anc, c =>
      if anc = c then true
      else
        match commits.lookup c with
        | some obj => obj.parents.any (fun p => isAncestor commits fuel anc p)
        | none => false

/-- Octokit `git.updateRef` without `force` (the source sends no `force`
flag): the move is accepted only when it is a fast-forward, i.e. the ref's
current head is an ancestor of the proposed commit; otherwise HTTP 422 and the
ref is untouched.  This is the store-side compare-and-swap the batch commit
relies on. -/
def updateRef (s : Store) (ref : String) (sha : Nat) : Except OctoErr Store :=
  match s.check with
  | .error e => .error e
  | .ok _ =>
    match s.branches.lookup ref with
  | some cur =>
      if isAncestor s.commits (s.commits.length + 1) cur sha then
        .ok { s with branches := (ref, sha) :: s.branches.filter (fun b => b.1 ≠ ref) }
      else .error (.http 422)
  | none => .error (.http 404)

/-! ## The service layer (`src/lib/github.ts`) -/

/-- `GitHubConfig` from the source. -/
structure GitHubConfig where
  owner : String
  repo : String
  token : String
  branch : Option String
deriving DecidableEq, Repr

/-- `this.config.branch || 'main'`: an absent or empty branch name falls back
to `main` (JavaScript truthiness). -/
def GitHubConfig.branchName (cfg : GitHubConfig) : String :=
  match cfg.branch with
  | none => "main"
  | some b => if b = "" then "main" else b

/-- `GitHubFile` from the source: note the optional per-file `sha` field. -/
structure GitHubFile where
  name : String
  content : String
  sha : Option String
deriving DecidableEq, Repr

/-- The errors the service layer surfaces to its callers.  Each constructor is
one of the `throw new Error(...)` sites of the source (the message template is
recorded in the constructor); the source has no other public failure shape. -/
inductive ServiceError where
  /-- `Failed to fetch file: <path>` -/
  | fetchFailed (path : String)
  /-- `Failed to commit file: <path>` -/
  | commitFailed (path : String)
  /-- `Failed to commit multiple files` -/
  | multiFailed
deriving DecidableEq, Repr

/-- The store operations a service call can issue, recorded as a trace. -/
inductive StoreOp where
  | contentGet (path : String)
  | filePut (path message content : String) (sha : Option String)
  | refGet (ref : String)
  | commitGet (sha : Nat)
  | blobCreate (content : String)
  | treeCreate (base : Nat) (entries : List TreeEntry)
  | commitCreate (message : String) (tree : Nat) (parents : List Nat)
  | refUpdate (ref : String) (sha : Nat)
deriving DecidableEq, Repr

/-- `GitHubService.fetchMarkdownFile`: returns the decoded content when the
response is a single file; a directory response falls through to the inner
`throw`, and the surrounding `catch` converts every failure — absent path,
directory, transport, authentication — into the one generic
`Failed to fetch file: <path>` error. -/
def fetchMarkdownFile (cfg : GitHubConfig) (s : Store) (filePath : String) :
    Except ServiceError String :=
  match getContent s filePath with
  | .ok (.file content _) => .ok content
  | .ok (.dir _) => .error (.fetchFailed filePath)
  | .error _ => .error (.fetchFailed filePath)

/-- `GitHubService.getFileSha`: the current blob sha of a path, `none` both
when the store answers 404 (the path does not exist: treated as "create") and
when the response is a directory (the source then falls off the end of the
function); every other failure is re-raised to the caller. -/
def getFileSha (cfg : GitHubConfig) (s : Store) (filePath : String) :
    Except OctoErr (Option String) :=
  match getContent s filePath with
  | .ok (.file _ sha) => .ok (some sha)
  | .ok (.dir _) => .ok none
  | .error (.http 404) => .ok none
  | .error e => .error e

/-- `GitHubService.commitFile`: read the current sha, then submit one
compare-and-swap write carrying it (omitted when creating).  `interfere` is
the concurrent writer striking between the read and the write.  The `catch`
converts every failure — including the store's compare-and-swap rejection —
into the one generic `Failed to commit file: <path>` error.  No retry is
issued. -/
def commitFile (cfg : GitHubConfig) (interfere : Store → Store) (s : Store)
    (filePath content message : String) :
    Except ServiceError Unit × Store × List StoreOp :=
  match getFileSha cfg s filePath with
  | .error _ => (.error (.commitFailed filePath), s, [.contentGet filePath])
  | .ok existingSha =>
      let s1 := interfere s
      match putFileContents s1 filePath content existingSha with
      | .ok s2 =>
          (.ok (), s2, [.contentGet filePath, .filePut filePath message content existingSha])
      | .error _ =>
          (.error (.commitFailed filePath), s1,
           [.contentGet filePath, .filePut filePath message content existingSha])

/-- The blob-creation loop of `commitMultipleFiles`: one `createBlob` per
file, each paired into a tree entry `{path := file.name, mode := "100644",
type := "blob", sha := <fresh blob id>}`.  (The source issues the calls via
`Promise.all`; blob creation is order-independent, and the model serializes
it.)  Only `name` and `content` of each file are ever read. -/
def createBlobs (s : Store) (files : List GitHubFile) :
    Except OctoErr (List TreeEntry) × Store × List StoreOp :=
  match files with
  | [] => (.ok [], s, [])
  | f :: rest =>
      match createBlob s f.content with
      | .error e => (.error e, s, [.blobCreate f.content])
      | .ok (sha, s1) =>
          match createBlobs s1 rest with
          | (.error e, s2, tr) => (.error e, s2, .blobCreate f.content :: tr)
          | (.ok es, s2, tr) =>
              (.ok (⟨f.name, "100644", "blob", sha⟩ :: es), s2,
               .blobCreate f.content :: tr)

/-- `GitHubService.commitMultipleFiles`: read the branch head and its commit,
create one blob per file, create a tree over the head commit's tree, create a
commit whose sole parent is the head, and finally move the ref.  `interfere`
is the concurrent writer striking between the read phase and the final ref
update.  The `catch` converts every failure — including the ref update's
fast-forward rejection when the branch moved — into the one generic
`Failed to commit multiple files` error.  There is no emptiness check on
`files`. -/
def commitMultipleFiles (cfg : GitHubConfig) (interfere : Store → Store) (s : Store)
    (files : List GitHubFile) (message : String) :
    Except ServiceError Unit × Store × List StoreOp :=
  let ref := "heads/" ++ cfg.branchName
  match getRef s ref with
  | .error _ => (.error .multiFailed, s, [.refGet ref])
  | .ok headSha =>
    match getCommit s headSha with
    | .error _ => (.error .multiFailed, s, [.refGet ref, .commitGet headSha])
    | .ok headCommit =>
      match createBlobs s files with
      | (.error _, s2, tr) =>
          (.error .multiFailed, s2, .refGet ref :: .commitGet headSha :: tr)
      | (.ok entries, s2, tr) =>
        match createTree s2 headCommit.tree entries with
        | .error _ =>
            (.error .multiFailed, s2,
             .refGet ref :: .commitGet headSha :: (tr ++ [.treeCreate headCommit.tree entries]))
        | .ok (treeSha, s3) =>
          match createCommit s3 message treeSha [headSha] with
          | .error _ =>
              (.error .multiFailed, s3,
               .refGet ref :: .commitGet headSha ::
                 (tr ++ [.treeCreate headCommit.tree entries,
                         .commitCreate message treeSha [headSha]]))
          | .ok (newSha, s4) =>
            let s5 := interfere s4
            let fullTr :=
              .refGet ref :: .commitGet headSha ::
                (tr ++ [.treeCreate headCommit.tree entries,
                        .commitCreate message treeSha [headSha],
                        .refUpdate ref newSha])
            match updateRef s5 ref newSha with
            | .ok s6 => (.ok (), s6, fullTr)
            | .error _ => (.error .multiFailed, s5, fullTr)

/-- `GitHubService.listMarkdownFiles`: the paths of the directory entries that
are files with names ending in `.md`, in listing order.  The `catch` returns
`[]` for every failure — absent directory, but also transport and
authentication failures — and a single-file response also yields `[]`. -/
def listMarkdownFiles (cfg : GitHubConfig) (s : Store) (directory : String) :
    List String :=
  match getContent s directory with
  | .ok (.dir items) =>
      (items.filter (fun i => i.itemType = "file" && strEndsWith i.name ".md")).map
        (fun i => i.path)
  | .ok (.file _ _) => []
  | .error _ => []

/-! ## Configuration (`src/lib/config.ts`) -/

/-- The environment variables the configuration module reads (`none` models an
unset variable). -/
structure EnvVars where
  githubToken : Option String
  githubOwner : Option String
  githubRepo : Option String
  githubBranch : Option String
  nodeEnv : Option String
deriving DecidableEq, Repr

/-- JavaScript `x || fallback` on an optional string: unset and empty both
fall back. -/
def orElse (x : Option String) (fallback : String) : String :=
  match x with
  | none => fallback
  | some v => if v = "" then fallback else v

/-- `AppConfig` from the source (the `app` block flattened). -/
structure AppConfig where
  token : String
  owner : String
  repo : String
  branch : String
  nodeEnv : String
deriving DecidableEq, Repr

/-- `getConfig`: read the environment with the source's fallbacks. -/
def getConfig (env : EnvVars) : AppConfig :=
  { token := orElse env.githubToken ""
    owner := orElse env.githubOwner ""
    repo := orElse env.githubRepo ""
    branch := orElse env.githubBranch "main"
    nodeEnv := orElse env.nodeEnv "development" }

/-- `validateConfig`: the accumulated error messages, in source order.  A
non-empty token is additionally required to start with `ghp_` or
`github_pat_`. -/
def validateConfig (config : AppConfig) : List String :=
  (if config.token = "" then ["GITHUB_TOKEN is required"] else []) ++
  (if config.owner = "" then ["GITHUB_OWNER is required"] else []) ++
  (if config.repo = "" then ["GITHUB_REPO is required"] else []) ++
  (if config.token ≠ "" ∧ ¬strStartsWith config.token "ghp_" ∧
      ¬strStartsWith config.token "github_pat_" then
    ["GITHUB_TOKEN appears to be invalid (should start with ghp_ or github_pat_)"]
  else [])

/-- `getValidatedConfig`: the configuration, or the thrown validation
failure. -/
def getValidatedConfig (env : EnvVars) : Except String AppConfig :=
  let config := getConfig env
  let errors := validateConfig config
  if errors ≠ [] then
    .error ("Configuration validation failed:\n" ++ String.intercalate "\n" errors)
  else .ok config

/-- `isGitHubConfigured`. -/
def isGitHubConfigured (env : EnvVars) : Bool :=
  validateConfig (getConfig env) = []

/-! ## Markdown utilities (`extractMarkdownTitle`)

JavaScript string primitives are embedded over `List Char`: `split`, `trim`,
`startsWith`, `substring` become `jsSplit`, `trimL`, `List.isPrefixOf`,
`drop`/`take`. -/

/-- JavaScript `String.prototype.split(sep)` on character lists: `""` splits
to `[""]`, and a trailing separator yields a trailing empty piece. -/
def jsSplit (sep : Char) : List Char → List (List Char)
  | [] => [[]]
  | c :: rest =>
      if c = sep then [] :: jsSplit sep rest
      else
        match jsSplit sep rest with
        | [] => [[c]]
        | line :: more => (c :: line) :: more

/-- The whitespace class of JavaScript `trim`, restricted to the ASCII
whitespace characters (the sources only ever contain these). -/
def jsWhitespace (c : Char) : Bool :=
  c = ' ' ∨ c = '\t' ∨ c = '\n' ∨ c = '\r'

/-- JavaScript `String.prototype.trim` on character lists. -/
def trimL (l : List Char) : List Char :=
  ((l.dropWhile jsWhitespace).reverse.dropWhile jsWhitespace).reverse

/-- The line scan of `extractMarkdownTitle` over the split lines: first a pass
looking for a top-level heading (`trimmed.startsWith('# ')`, returning
`trimmed.substring(2).trim()`), then a pass looking for the first non-empty
line not starting with `---` (returning `trimmed.substring(0, 100)`), else the
fallback literal. -/
def extractTitleLines (lines : List (List Char)) : List Char :=
  match lines.find? (fun l => "# ".data.isPrefixOf (trimL l)) with
  | some l => trimL ((trimL l).drop 2)
  | none =>
      match lines.find? (fun l =>
          decide (trimL l ≠ []) && !("---".data.isPrefixOf (trimL l))) with
      | some l => (trimL l).take 100
      | none => "Untitled".data

/-- `extractMarkdownTitle` from the source. -/
def extractMarkdownTitle (markdownContent : String) : String :=
  String.mk (extractTitleLines (jsSplit '\n' markdownContent.data))

/-! ## The rendering pipeline (`markdownToHTML` and friends)

The structural parser (`marked`) and the sanitizer (`DOMPurify`) are
third-party libraries, not sources of this repository; what the repository
fixes is the configuration handed to them (`sanitizeHTML`'s allow-lists, with
`ALLOW_DATA_ATTR: false`) and the unconditional composition `markdownToHTML =
sanitizeHTML ∘ parseMarkdown`.  HTML is embedded as a rose tree, the
sanitizer is modelled from the spec over that tree, and the parser is left as
an arbitrary function `String → List Html`: every theorem below holds for any
parser output whatsoever. -/

/-- An HTML forest node: a text node, or an element with a tag, an attribute
list, and children. -/
inductive Html where
  | text : String → Html
  | elem : String → List (String × String) → List Html → Html

/-- The `ALLOWED_TAGS` list of `sanitizeHTML`, verbatim from the source. -/
def allowedTags : List String :=
  ["h1", "h2", "h3", "h4", "h5", "h6",
   "p", "br", "hr",
   "strong", "em", "u", "del", "code",
   "pre", "blockquote",
   "ul", "ol", "li",
   "table", "thead", "tbody", "tr", "th", "td",
   "a", "img",
   "div", "span"]

/-- The `ALLOWED_ATTR` list of `sanitizeHTML`, verbatim from the source. -/
def allowedAttrs : List String :=
  ["href", "title", "alt", "src", "class", "id", "target", "rel"]

/-- Modelled from the spec: the behaviour of `DOMPurify.sanitize` under the
configuration of `sanitizeHTML` (the DOMPurify library itself is not among
this repository's sources).  An element whose tag is allow-listed is kept with
only its allow-listed attributes (`ALLOW_DATA_ATTR: false` being subsumed by
the attribute allow-list, which contains no `data-*` name); a `script` or
`style` element is removed together with its entire contents; any other
disallowed element is dropped, its children being retained in place — never
escaped-and-kept as text. -/
def sanitizeNode : Html → List Html
  | .text s => [.text s]
  | .elem t attrs cs =>
      if t ∈ allowedTags then
        [.elem t (attrs.filter (fun a => decide (a.1 ∈ allowedAttrs)))
          (cs.attach.flatMap (fun c => sanitizeNode c.1))]
      else if t = "script" ∨ t = "style" then []
      else cs.attach.flatMap (fun c => sanitizeNode c.1)
decreasing_by
  all_goals
    simp only [Html.elem.sizeOf_spec]
    have := List.sizeOf_lt_of_mem c.2
    omega

/-- `sanitizeHTML` from the source, over the parsed forest. -/
def sanitizeHTML (htmlContent : List Html) : List Html :=
  htmlContent.flatMap sanitizeNode

/-- `markdownToHTML` from the source: the sanitizer applied to the parser's
output, unconditionally — the function takes no option that could skip
sanitization, and `parseMarkdown` here stands for whatever the `marked`
parser produces. -/
def markdownToHTML (parseMarkdown : String → List Html) (markdownContent : String) :
    List Html :=
  sanitizeHTML (parseMarkdown markdownContent)

/-- A node (together with its whole subtree) is sanitary when every element
bears an allow-listed tag and only allow-listed attributes — in particular no
`script` element, no `on*` event-handler attribute, and no `data-*`
attribute, none of which appear in the allow-lists. -/
def sanitaryNode : Html → Bool
  | .text _ => true
  | .elem t attrs cs =>
      decide (t ∈ allowedTags) && (t != "script") &&
      attrs.all (fun a =>
        decide (a.1 ∈ allowedAttrs) &&
        !(strStartsWith a.1 "on") && !(strStartsWith a.1 "data-")) &&
      cs.attach.all (fun c => sanitaryNode c.1)
decreasing_by
  simp only [Html.elem.sizeOf_spec]
  have := List.sizeOf_lt_of_mem c.2
  omega

/-! ## Drafts and the API route handlers

Dates are carried as opaque preformatted strings (`createdAtIso` for
`createdAt.toISOString()`, `createdAtDay` for `format(createdAt,
'yyyy-MM-dd')`), since no claim depends on date arithmetic. -/

/-- A `Draft` record as the routes consume it. -/
structure Draft where
  id : String
  title : String
  body : String
  createdAtIso : String
  updatedAtIso : String
  createdAtDay : String
deriving DecidableEq, Repr

/-- `draftToMarkdown`: the front-matter block followed by the body. -/
def draftToMarkdown (draft : Draft) : String :=
  "---\ntitle: \"" ++ draft.title ++ "\"\ndate: " ++ draft.createdAtIso ++
    "\nlastModified: " ++ draft.updatedAtIso ++ "\n---\n\n" ++ draft.body

/-- Lowercase a character list (JavaScript `toLowerCase`, ASCII fragment). -/
def toLowerL (l : List Char) : List Char :=
  l.map Char.toLower

/-- Is the character in `[a-z0-9]`? -/
def isSlugChar (c : Char) : Bool :=
  ('a' ≤ c ∧ c ≤ 'z') ∨ ('0' ≤ c ∧ c ≤ '9')

/-- `replace(/[^a-z0-9]+/g, '-')`: collapse every run of non-`[a-z0-9]`
characters to a single hyphen. -/
def collapseRuns : List Char → List Char
  | [] => []
  | c :: rest =>
      if isSlugChar c then c :: collapseRuns rest
      else '-' :: collapseRuns (rest.dropWhile (fun d => !isSlugChar d))
termination_by l => l.length
decreasing_by
  · simp only [List.length_cons]
    omega
  · have h : (rest.dropWhile (fun d => !isSlugChar d)).length ≤ rest.length :=
      (List.dropWhile_suffix _).length_le
    simp only [List.length_cons]
    omega

/-- `replace(/^-+|-+$/g, '')`: strip leading and trailing hyphens. -/
def stripHyphens (l : List Char) : List Char :=
  ((l.dropWhile (fun c => c = '-')).reverse.dropWhile (fun c => c = '-')).reverse

/-- The slug chain of `generateDraftFilename` (identical to `createSlug`):
lowercase, collapse non-alphanumeric runs to hyphens, strip edge hyphens,
truncate to 50 characters. -/
def slugOf (title : String) : String :=
  String.mk ((stripHyphens (collapseRuns (toLowerL title.data))).take 50)

/-- `generateDraftFilename`: `<yyyy-MM-dd>-<slug or "untitled">.md`, prefixed
by the directory when it is non-empty (JavaScript truthiness on
`directory`). -/
def generateDraftFilename (draft : Draft) (directory : String) : String :=
  let slug := slugOf draft.title
  let filename :=
    draft.createdAtDay ++ "-" ++ (if slug = "" then "untitled" else slug) ++ ".md"
  if directory = "" then filename else directory ++ "/" ++ filename

/-- What a route handler produces, as far as the claims are concerned: the
HTTP status, the store as the call left it, and the store operations that
were issued. -/
structure RouteResult where
  status : Nat
  store : Store
  trace : List StoreOp
deriving DecidableEq, Repr

/-- The commit message built by the publish POST handler. -/
def publishMessage (ds : List Draft) : String :=
  "Publish " ++ toString ds.length ++ " draft" ++
    (if 1 < ds.length then "s" else "") ++ ": " ++
    String.intercalate ", " (ds.map (fun d => d.title))

/-- `POST /api/github/publish`: reject a missing or empty `drafts` array with
400 before anything else; then validate the configuration (500 on failure,
before any store call); then convert each draft to a file and call
`commitMultipleFiles` (200 on success, 500 on failure). -/
def publishPOST (env : EnvVars) (drafts : Option (List Draft))
    (directory : Option String) (s : Store) : RouteResult :=
  match drafts with
  | none => ⟨400, s, []⟩
  | some ds =>
    if ds.length = 0 then ⟨400, s, []⟩
    else
      match getValidatedConfig env with
      | .error _ => ⟨500, s, []⟩
      | .ok config =>
          let dir := directory.getD "content"
          let cfg : GitHubConfig :=
            ⟨config.owner, config.repo, config.token, some config.branch⟩
          let githubFiles := ds.map (fun d =>
            GitHubFile.mk (generateDraftFilename d dir) (draftToMarkdown d) none)
          match commitMultipleFiles cfg id s githubFiles (publishMessage ds) with
          | (.ok _, s1, tr) => ⟨200, s1, tr⟩
          | (.error _, s1, tr) => ⟨500, s1, tr⟩

/-- `PUT /api/github/publish`: reject a missing `draft` with 400; then
validate the configuration (500 on failure, before any store call); then
call `commitFile` (200 on success, 500 on failure). -/
def publishPUT (env : EnvVars) (draft : Option Draft) (directory : Option String)
    (filePath : Option String) (s : Store) : RouteResult :=
  match draft with
  | none => ⟨400, s, []⟩
  | some d =>
      match getValidatedConfig env with
      | .error _ => ⟨500, s, []⟩
      | .ok config =>
          let dir := directory.getD "content"
          let cfg : GitHubConfig :=
            ⟨config.owner, config.repo, config.token, some config.branch⟩
          let filename :=
            match filePath with
            | some p => if p = "" then generateDraftFilename d dir else p
            | none => generateDraftFilename d dir
          match commitFile cfg id s filename (draftToMarkdown d)
              ("Update: " ++ d.title) with
          | (.ok _, s1, tr) => ⟨200, s1, tr⟩
          | (.error _, s1, tr) => ⟨500, s1, tr⟩

/-- `GET /api/github/list`: `directory` query parameter defaulting to
`content` on absence or emptiness; validate the configuration (500 on
failure, before any store call); then `listMarkdownFiles`, which never
fails, wrapped in a 200. -/
def listGET (env : EnvVars) (directory : Option String) (s : Store) : RouteResult :=
  let dir := orElse directory "content"
  match getValidatedConfig env with
  | .error _ => ⟨500, s, []⟩
  | .ok config =>
      let cfg : GitHubConfig :=
        ⟨config.owner, config.repo, config.token, some config.branch⟩
      let _ := listMarkdownFiles cfg s dir
      ⟨200, s, [.contentGet dir]⟩

/-! ## Auxiliary definitions for the theorems -/

/-- The tree entries `commitMultipleFiles` builds: one per file, mode
`100644`, type `blob`, blob ids allocated consecutively from `n`. -/
def blobEntries : List GitHubFile → Nat → List TreeEntry
  | [], _ => []
  | f :: rest, n => ⟨f.name, "100644", "blob", n⟩ :: blobEntries rest (n + 1)

/-- The blob objects `commitMultipleFiles` stores: ids paired with the file
contents, allocated consecutively from `n`. -/
def blobPairs : List GitHubFile → Nat → List (Nat × String)
  | [], _ => []
  | f :: rest, n => (n, f.content) :: blobPairs rest (n + 1)

/-- A concurrent writer that repoints a ref at commit `b` (used as the
`interfere` argument: the branch advances between the read phase and the ref
update). -/
def setBranch (ref : String) (b : Nat) (t : Store) : Store :=
  { t with branches := (ref, b) :: t.branches.filter (fun e => e.1 ≠ ref) }

/-- A concurrent writer that replaces the file at `p` with new content and a
new sha (used as the `interfere` argument of `commitFile`: the file's
concurrency token changes between the read and the write). -/
def setFile (p c sha : String) (t : Store) : Store :=
  { t with contents := setContent t.contents p (.file c sha) }

/-- A configuration whose effective branch is `main`. -/
def cfgMain : GitHubConfig := ⟨"owner", "repo", "ghp_token", some "main"⟩

/-- A healthy store: branch `main` at commit `0`, whose tree `10` is empty;
fresh ids start at `11`. -/
def baseStore : Store :=
  ⟨[], [("heads/main", 0)], [(0, ⟨10, []⟩)], [(10, [])], [], 11, true, true⟩

/-- `baseStore` with a second root commit `5` for a concurrent writer to
point the branch at. -/
def forkStore : Store :=
  ⟨[], [("heads/main", 0)], [(0, ⟨10, []⟩), (5, ⟨10, []⟩)], [(10, [])], [], 11, true, true⟩

/-- `forkStore` taken offline (every call fails at the transport). -/
def forkStoreOffline : Store :=
  ⟨[], [("heads/main", 0)], [(0, ⟨10, []⟩), (5, ⟨10, []⟩)], [(10, [])], [], 11, false, true⟩

/-- An empty store: no contents, no refs. -/
def emptyStore : Store := ⟨[], [], [], [], [], 0, true, true⟩

/-- A store holding the file `p.md`, but offline. -/
def fileStoreOffline : Store :=
  ⟨[("p.md", .file "hello" "t1")], [], [], [], [], 0, false, true⟩

/-- A store holding the file `p.md`, online. -/
def fileStore : Store :=
  ⟨[("p.md", .file "old" "t1")], [], [], [], [], 0, true, true⟩

/-- A store whose `content` directory lists `a.md`, `b.md`, `notes.txt`. -/
def listStore : Store :=
  ⟨[("content", .dir
      [⟨"a.md", "content/a.md", "file"⟩,
       ⟨"b.md", "content/b.md", "file"⟩,
       ⟨"notes.txt", "content/notes.txt", "file"⟩])],
   [], [], [], [], 0, true, true⟩

/-- `listStore` taken offline. -/
def listStoreOffline : Store :=
  ⟨[("content", .dir
      [⟨"a.md", "content/a.md", "file"⟩,
       ⟨"b.md", "content/b.md", "file"⟩,
       ⟨"notes.txt", "content/notes.txt", "file"⟩])],
   [], [], [], [], 0, false, true⟩

/-- An environment whose token bears neither accepted prefix, with owner and
repo present. -/
def badTokenEnv : EnvVars :=
  ⟨some "gho_sometoken", some "owner", some "repo", some "main", some "test"⟩

/-! ## General lemmas about the store model -/

theorem check_ok (s : Store) (h1 : s.online = true) (h2 : s.authOk = true) :
    s.check = .ok () := by
  simp [Store.check, h1, h2]

theorem lookup_append_of_none {β : Type} (l₁ l₂ : List (Nat × β)) (k : Nat)
    (h : l₁.lookup k = none) : (l₁ ++ l₂).lookup k = l₂.lookup k := by
  induction l₁ with
  | nil => rfl
  | cons a rest ih =>
      rw [List.cons_append]
      rw [List.lookup] at h ⊢
      cases hk : (k == a.1) with
      | true => rw [hk] at h; exact absurd h (by simp)
      | false => rw [hk] at h; exact ih h

theorem lookup_singleton {β : Type} (k : Nat) (v : β) :
    ([(k, v)] : List (Nat × β)).lookup k = some v := by
  simp [List.lookup]

theorem createBlobs_ok (files : List GitHubFile) (s : Store)
    (h1 : s.online = true) (h2 : s.authOk = true) :
    createBlobs s files =
      (.ok (blobEntries files s.nextId),
       { s with blobs := s.blobs ++ blobPairs files s.nextId,
                nextId := s.nextId + files.length },
       files.map (fun f => .blobCreate f.content)) := by
  induction files generalizing s with
  | nil =>
      simp only [createBlobs, blobEntries, blobPairs, List.append_nil,
        List.length_nil, Nat.add_zero, List.map_nil]
  | cons f rest ih =>
      rw [createBlobs, createBlob, check_ok s h1 h2]
      dsimp only
      rw [ih { s with blobs := s.blobs ++ [(s.nextId, f.content)], nextId := s.nextId + 1 }
        h1 h2]
      simp only [blobEntries, blobPairs, List.map_cons, List.length_cons,
        List.append_assoc, List.singleton_append]
      have h : s.nextId + 1 + rest.length = s.nextId + (rest.length + 1) := by omega
      rw [h]

/-- Master run lemma: under a healthy store whose branch, head commit and head
tree resolve, `commitMultipleFiles` deterministically performs steps 1–4
(read ref, read commit, one blob per file, tree over the head tree, commit
with sole parent the head), and the overall outcome is decided by the final
`updateRef` against the interfered store. -/
theorem commitMultipleFiles_run (cfg : GitHubConfig) (interfere : Store → Store)
    (s : Store) (files : List GitHubFile) (message : String)
    (h0 : Nat) (c0 : CommitObj) (baseEntries : List TreeEntry)
    (hon : s.online = true) (hau : s.authOk = true)
    (href : s.branches.lookup ("heads/" ++ cfg.branchName) = some h0)
    (hcom : s.commits.lookup h0 = some c0)
    (htree : s.trees.lookup c0.tree = some baseEntries) :
    commitMultipleFiles cfg interfere s files message =
      (match updateRef
          (interfere
            { s with
              blobs := s.blobs ++ blobPairs files s.nextId,
              trees := s.trees ++
                [(s.nextId + files.length,
                  (blobEntries files s.nextId).foldl overlayEntry baseEntries)],
              commits := s.commits ++
                [(s.nextId + files.length + 1, ⟨s.nextId + files.length, [h0]⟩)],
              nextId := s.nextId + files.length + 1 + 1 })
          ("heads/" ++ cfg.branchName) (s.nextId + files.length + 1) with
       | .ok s6 => (.ok (), s6,
           StoreOp.refGet ("heads/" ++ cfg.branchName) :: StoreOp.commitGet h0 ::
             (files.map (fun f => StoreOp.blobCreate f.content) ++
              [StoreOp.treeCreate c0.tree (blobEntries files s.nextId),
               StoreOp.commitCreate message (s.nextId + files.length) [h0],
               StoreOp.refUpdate ("heads/" ++ cfg.branchName) (s.nextId + files.length + 1)]))
       | .error _ => (.error .multiFailed,
           interfere
             { s with
               blobs := s.blobs ++ blobPairs files s.nextId,
               trees := s.trees ++
                 [(s.nextId + files.length,
                   (blobEntries files s.nextId).foldl overlayEntry baseEntries)],
               commits := s.commits ++
                 [(s.nextId + files.length + 1, ⟨s.nextId + files.length, [h0]⟩)],
               nextId := s.nextId + files.length + 1 + 1 },
           StoreOp.refGet ("heads/" ++ cfg.branchName) :: StoreOp.commitGet h0 ::
             (files.map (fun f => StoreOp.blobCreate f.content) ++
              [StoreOp.treeCreate c0.tree (blobEntries files s.nextId),
               StoreOp.commitCreate message (s.nextId + files.length) [h0],
               StoreOp.refUpdate ("heads/" ++ cfg.branchName) (s.nextId + files.length + 1)]))) := by
  simp only [commitMultipleFiles, getRef, getCommit, createTree, createCommit,
    Store.check, createBlobs_ok files s hon hau, hon, hau, href, hcom, htree,
    Bool.not_true, Bool.false_eq_true, if_false]

/-- Entry lookup in a tree by path (first match). -/
def findPath (es : List TreeEntry) (p : String) : Option TreeEntry :=
  match es with
  | [] => none
  | e :: rest => if e.path = p then some e else findPath rest p

theorem findPath_append (l₁ l₂ : List TreeEntry) (p : String) :
    findPath (l₁ ++ l₂) p =
      (match findPath l₁ p with
       | some e => some e
       | none => findPath l₂ p) := by
  induction l₁ with
  | nil => rfl
  | cons a rest ih =>
      rw [List.cons_append, findPath, findPath]
      by_cases hap : a.path = p
      · simp [hap]
      · simp only [if_neg hap]
        exact ih

theorem findPath_filter_ne (l : List TreeEntry) (p q : String) (h : p ≠ q) :
    findPath (l.filter (fun b => b.path ≠ q)) p = findPath l p := by
  induction l with
  | nil => rfl
  | cons a rest ih =>
      rw [List.filter_cons]
      by_cases haq : a.path = q
      · have hqp : ¬q = p := Ne.symm h
        simp only [haq, ne_eq, decide_not, decide_True, Bool.not_true, Bool.false_eq_true,
          if_false, findPath, if_neg hqp]
        simpa only [ne_eq, decide_not] using ih
      · simp only [haq, ne_eq, decide_not, decide_False, Bool.not_false, if_true, findPath]
        by_cases hap : a.path = p
        · simp [hap]
        · simp only [if_neg hap]
          simpa only [ne_eq, decide_not] using ih

theorem findPath_filter_self (l : List TreeEntry) (p : String) :
    findPath (l.filter (fun b => b.path ≠ p)) p = none := by
  induction l with
  | nil => rfl
  | cons a rest ih =>
      rw [List.filter_cons]
      by_cases hap : a.path = p
      · simp only [hap, ne_eq, decide_not, decide_True, Bool.not_true, Bool.false_eq_true,
          if_false]
        simpa only [ne_eq, decide_not] using ih
      · simp only [hap, ne_eq, decide_not, decide_False, Bool.not_false, if_true, findPath,
          if_neg hap]
        simpa only [ne_eq, decide_not] using ih

theorem findPath_overlayEntry_ne (base : List TreeEntry) (e : TreeEntry) (p : String)
    (h : p ≠ e.path) :
    findPath (overlayEntry base e) p = findPath base p := by
  rw [overlayEntry, findPath_append, findPath_filter_ne base p e.path h]
  match findPath base p with
  | some x => rfl
  | none => simp [findPath, if_neg (Ne.symm h)]

theorem findPath_overlayEntry_self (base : List TreeEntry) (e : TreeEntry) :
    findPath (overlayEntry base e) e.path = some e := by
  rw [overlayEntry, findPath_append, findPath_filter_self]
  simp [findPath]

theorem findPath_overlay_not_mem (es : List TreeEntry) (base : List TreeEntry) (p : String)
    (h : p ∉ es.map (fun e => e.path)) :
    findPath (es.foldl overlayEntry base) p = findPath base p := by
  induction es generalizing base with
  | nil => rfl
  | cons e rest ih =>
      rw [List.map_cons] at h
      rw [List.foldl_cons]
      rw [ih (overlayEntry base e) (fun hm => h (List.mem_cons_of_mem _ hm))]
      exact findPath_overlayEntry_ne base e p (fun hp => h (hp ▸ List.mem_cons_self _ _))

theorem findPath_overlay_mem (es : List TreeEntry) (base : List TreeEntry)
    (hnd : (es.map (fun e => e.path)).Nodup) (e : TreeEntry) (he : e ∈ es) :
    findPath (es.foldl overlayEntry base) e.path = some e := by
  induction es generalizing base with
  | nil => exact absurd he (List.not_mem_nil e)
  | cons a rest ih =>
      rw [List.map_cons, List.nodup_cons] at hnd
      rw [List.foldl_cons]
      rcases List.mem_cons.1 he with he1 | he1
      · subst he1
        rw [findPath_overlay_not_mem rest (overlayEntry base e) e.path hnd.1]
        exact findPath_overlayEntry_self base e
      · exact ih (overlayEntry base a) hnd.2 he1

theorem isAncestor_self (cs : List (Nat × CommitObj)) (a fuel : Nat) :
    isAncestor cs (fuel + 1) a a = true := by
  simp [isAncestor]

theorem isAncestor_parent_step (cs : List (Nat × CommitObj)) (h0 cId tId L : Nat)
    (hne : h0 ≠ cId) (hc : cs.lookup cId = some ⟨tId, [h0]⟩) :
    isAncestor cs (L + 1 + 1) h0 cId = true := by
  rw [isAncestor, if_neg hne, hc]
  simp [isAncestor_self]

theorem blobEntries_map_path (files : List GitHubFile) (n : Nat) :
    (blobEntries files n).map (fun e => e.path) = files.map (fun f => f.name) := by
  induction files generalizing n with
  | nil => rfl
  | cons f rest ih => simp [blobEntries, ih]

theorem blobEntries_of_mem (files : List GitHubFile) (n : Nat) (f : GitHubFile)
    (hf : f ∈ files) :
    ∃ b, n ≤ b ∧ (⟨f.name, "100644", "blob", b⟩ : TreeEntry) ∈ blobEntries files n ∧
      (blobPairs files n).lookup b = some f.content := by
  induction files generalizing n with
  | nil => cases hf
  | cons g rest ih =>
      rcases List.mem_cons.1 hf with h1 | h1
      · subst h1
        refine ⟨n, Nat.le_refl n, List.mem_cons_self _ _, ?_⟩
        simp [blobPairs, List.lookup]
      · obtain ⟨b, hb, hmem, hlook⟩ := ih (n + 1) h1
        refine ⟨b, by omega, List.mem_cons_of_mem _ hmem, ?_⟩
        rw [blobPairs, List.lookup]
        have hbn : (b == n) = false := by
          simp only [beq_eq_false_iff_ne, ne_eq]
          omega
        rw [hbn]
        exact hlook

theorem createBlobs_branches (s : Store) (files : List GitHubFile) :
    (createBlobs s files).2.1.branches = s.branches := by
  induction files generalizing s with
  | nil => rfl
  | cons f rest ih =>
      rw [createBlobs, createBlob]
      cases hck : s.check with
      | error e => rfl
      | ok u =>
          dsimp only
          rcases hcb : createBlobs
              { s with blobs := s.blobs ++ [(s.nextId, f.content)],
                       nextId := s.nextId + 1 } rest with ⟨res, s2, tr⟩
          have hb : s2.branches = s.branches := by
            have h2 := ih { s with blobs := s.blobs ++ [(s.nextId, f.content)],
                                   nextId := s.nextId + 1 }
            rw [hcb] at h2
            exact h2
          rcases res with e | es
          · exact hb
          · exact hb

theorem createTree_ok_branches (s : Store) (b : Nat) (es : List TreeEntry)
    (t : Nat) (s' : Store) (h : createTree s b es = .ok (t, s')) :
    s'.branches = s.branches := by
  rw [createTree] at h
  cases hck : s.check with
  | error e => rw [hck] at h; cases h
  | ok u =>
      rw [hck] at h
      dsimp only at h
      cases hlt : s.trees.lookup b with
      | none => rw [hlt] at h; cases h
      | some bes =>
          rw [hlt] at h
          dsimp only at h
          cases h
          rfl

theorem createCommit_ok_branches (s : Store) (m : String) (t : Nat) (ps : List Nat)
    (c : Nat) (s' : Store) (h : createCommit s m t ps = .ok (c, s')) :
    s'.branches = s.branches := by
  rw [createCommit] at h
  cases hck : s.check with
  | error e => rw [hck] at h; cases h
  | ok u =>
      rw [hck] at h
      dsimp only at h
      cases h
      rfl

/-- With no interfering writer, every run of `commitMultipleFiles` either
succeeds or leaves the branch pointers exactly as they were: no failure is
ever accompanied by a branch mutation. -/
theorem commitMultipleFiles_id_branches (cfg : GitHubConfig) (s : Store)
    (files : List GitHubFile) (message : String) :
    (commitMultipleFiles cfg id s files message).1 = .ok () ∨
    (commitMultipleFiles cfg id s files message).2.1.branches = s.branches := by
  rw [commitMultipleFiles]
  dsimp only
  rcases hgr : getRef s ("heads/" ++ cfg.branchName) with e1 | headSha
  · right; rfl
  dsimp only
  rcases hgc : getCommit s headSha with e2 | headCommit
  · right; rfl
  dsimp only
  rcases hcb : createBlobs s files with ⟨res, s2, tr⟩
  have hbr2 : s2.branches = s.branches := by
    have h2 := createBlobs_branches s files
    rw [hcb] at h2
    exact h2
  rcases res with e3 | entries
  · right; exact hbr2
  dsimp only
  rcases hct : createTree s2 headCommit.tree entries with e4 | pair1
  · right; exact hbr2
  obtain ⟨treeSha, s3⟩ := pair1
  have hbr3 : s3.branches = s.branches := by
    rw [createTree_ok_branches s2 headCommit.tree entries treeSha s3 hct]
    exact hbr2
  dsimp only
  rcases hcc : createCommit s3 message treeSha [headSha] with e5 | pair2
  · right; exact hbr3
  obtain ⟨newSha, s4⟩ := pair2
  have hbr4 : s4.branches = s.branches := by
    rw [createCommit_ok_branches s3 message treeSha [headSha] newSha s4 hcc]
    exact hbr3
  dsimp only
  rcases hur : updateRef (id s4) ("heads/" ++ cfg.branchName) newSha with e6 | s6
  · right
    exact hbr4
  · left; rfl

/-! ## The claims -/

/-- **C6.** For every batch, `commitMultipleFiles` follows the object-graph
algorithm: one blob per file; a new tree over the head commit's tree with one
overlay entry `{path, "100644", "blob", blob id}` per file; a commit whose
tree is that tree and whose sole parent is the head commit read in step 1;
and only then the ref update (the trace equation).  Paths not in the batch
resolve in the new tree exactly as in the base tree; batch paths resolve to
the fresh blob entries carrying the batch contents; and the batch is
all-or-nothing: any uncontended run that fails leaves the branch pointers
untouched. -/
theorem C6_thm (cfg : GitHubConfig) (s : Store) (files : List GitHubFile)
    (message : String) (h0 : Nat) (c0 : CommitObj) (baseEntries : List TreeEntry)
    (hon : s.online = true) (hau : s.authOk = true)
    (href : s.branches.lookup ("heads/" ++ cfg.branchName) = some h0)
    (hcom : s.commits.lookup h0 = some c0)
    (htree : s.trees.lookup c0.tree = some baseEntries)
    (hne : h0 ≠ s.nextId + files.length + 1)
    (hcfresh : s.commits.lookup (s.nextId + files.length + 1) = none)
    (htfresh : s.trees.lookup (s.nextId + files.length) = none)
    (hbfresh : ∀ k, s.nextId ≤ k → s.blobs.lookup k = none) :
    (commitMultipleFiles cfg id s files message).1 = .ok () ∧
    (commitMultipleFiles cfg id s files message).2.2 =
      StoreOp.refGet ("heads/" ++ cfg.branchName) :: StoreOp.commitGet h0 ::
        (files.map (fun f => StoreOp.blobCreate f.content) ++
         [StoreOp.treeCreate c0.tree (blobEntries files s.nextId),
          StoreOp.commitCreate message (s.nextId + files.length) [h0],
          StoreOp.refUpdate ("heads/" ++ cfg.branchName) (s.nextId + files.length + 1)]) ∧
    (commitMultipleFiles cfg id s files message).2.1.branches =
      ("heads/" ++ cfg.branchName, s.nextId + files.length + 1) ::
        s.branches.filter (fun b => b.1 ≠ "heads/" ++ cfg.branchName) ∧
    (commitMultipleFiles cfg id s files message).2.1.commits.lookup
        (s.nextId + files.length + 1) = some ⟨s.nextId + files.length, [h0]⟩ ∧
    (commitMultipleFiles cfg id s files message).2.1.trees.lookup
        (s.nextId + files.length) =
      some ((blobEntries files s.nextId).foldl overlayEntry baseEntries) ∧
    (∀ p, p ∉ files.map (fun f => f.name) →
      findPath ((blobEntries files s.nextId).foldl overlayEntry baseEntries) p =
        findPath baseEntries p) ∧
    ((files.map (fun f => f.name)).Nodup → ∀ f ∈ files, ∃ b,
      findPath ((blobEntries files s.nextId).foldl overlayEntry baseEntries) f.name =
          some ⟨f.name, "100644", "blob", b⟩ ∧
      (commitMultipleFiles cfg id s files message).2.1.blobs.lookup b =
        some f.content) ∧
    (∀ (t : Store) (es : List GitHubFile) (m : String),
      (commitMultipleFiles cfg id t es m).1 ≠ .ok () →
      (commitMultipleFiles cfg id t es m).2.1.branches = t.branches) := by
  have hlook : (s.commits ++
      [(s.nextId + files.length + 1,
        (⟨s.nextId + files.length, [h0]⟩ : CommitObj))]).lookup
        (s.nextId + files.length + 1) = some ⟨s.nextId + files.length, [h0]⟩ := by
    rw [lookup_append_of_none _ _ _ hcfresh]
    exact lookup_singleton _ _
  have hanc : isAncestor
      (s.commits ++ [(s.nextId + files.length + 1, ⟨s.nextId + files.length, [h0]⟩)])
      ((s.commits ++
        [(s.nextId + files.length + 1,
          (⟨s.nextId + files.length, [h0]⟩ : CommitObj))]).length + 1)
      h0 (s.nextId + files.length + 1) = true := by
    rw [List.length_append, List.length_singleton]
    exact isAncestor_parent_step _ h0 _ _ s.commits.length hne hlook
  have hrun := commitMultipleFiles_run cfg id s files message h0 c0 baseEntries
    hon hau href hcom htree
  dsimp only [id] at hrun
  simp only [updateRef, Store.check, hon, hau, Bool.not_true, Bool.false_eq_true,
    if_false, href, hanc, eq_self_iff_true, if_true] at hrun
  rw [hrun]
  refine ⟨rfl, rfl, rfl, ?_, ?_, ?_, ?_, ?_⟩
  · exact hlook
  · rw [lookup_append_of_none _ _ _ htfresh]
    exact lookup_singleton _ _
  · intro p hp
    refine findPath_overlay_not_mem _ _ p ?_
    rw [blobEntries_map_path]
    exact hp
  · intro hnd f hf
    obtain ⟨b, hb, hmem, hlookb⟩ := blobEntries_of_mem files s.nextId f hf
    refine ⟨b, ?_, ?_⟩
    · have h1 := findPath_overlay_mem (blobEntries files s.nextId) baseEntries
        (by rw [blobEntries_map_path]; exact hnd) ⟨f.name, "100644", "blob", b⟩ hmem
      exact h1
    · rw [lookup_append_of_none _ _ _ (hbfresh b hb)]
      exact hlookb
  · intro t es m hno
    rcases commitMultipleFiles_id_branches cfg t es m with h1 | h1
    · exact absurd h1 hno
    · exact h1

/-- **C6** witness: a concrete uncontended batch commit on `baseStore`
succeeds. -/
theorem C6_witness :
    (commitMultipleFiles cfgMain id baseStore
      [⟨"a.md", "A", none⟩, ⟨"b.md", "B", none⟩] "publish").1 = .ok () :=
  (C6_thm cfgMain baseStore [⟨"a.md", "A", none⟩, ⟨"b.md", "B", none⟩] "publish"
    0 ⟨10, []⟩ [] (by decide) (by decide) (by decide) (by decide) (by decide)
    (by decide) (by decide) (by decide) (fun k _ => rfl)).1

/-- **C1 (amended).** The ref update is conditional: when another writer has
repointed the branch at a commit `b` from which the new commit does not
fast-forward (the store's own check, stated as the `isAncestor` hypothesis),
`commitMultipleFiles` fails and performs no branch mutation — the branch
stays exactly where the other writer put it.  The failure, however, is
surfaced as the one generic `multiFailed` error — the method's only failure
shape — not as a distinguished `ConcurrencyConflict` variant. -/
theorem C1_amended (cfg : GitHubConfig) (s : Store) (files : List GitHubFile)
    (message : String) (h0 b : Nat) (c0 : CommitObj) (baseEntries : List TreeEntry)
    (hon : s.online = true) (hau : s.authOk = true)
    (href : s.branches.lookup ("heads/" ++ cfg.branchName) = some h0)
    (hcom : s.commits.lookup h0 = some c0)
    (htree : s.trees.lookup c0.tree = some baseEntries)
    (hconf : isAncestor
      (s.commits ++ [(s.nextId + files.length + 1, ⟨s.nextId + files.length, [h0]⟩)])
      ((s.commits ++
        [(s.nextId + files.length + 1,
          (⟨s.nextId + files.length, [h0]⟩ : CommitObj))]).length + 1)
      b (s.nextId + files.length + 1) = false) :
    (commitMultipleFiles cfg (setBranch ("heads/" ++ cfg.branchName) b) s
        files message).1 = .error .multiFailed ∧
    (commitMultipleFiles cfg (setBranch ("heads/" ++ cfg.branchName) b) s
        files message).2.1.branches =
      ("heads/" ++ cfg.branchName, b) ::
        s.branches.filter (fun e => e.1 ≠ "heads/" ++ cfg.branchName) := by
  have hrun := commitMultipleFiles_run cfg (setBranch ("heads/" ++ cfg.branchName) b)
    s files message h0 c0 baseEntries hon hau href hcom htree
  simp only [setBranch] at hrun
  simp only [updateRef, Store.check, hon, hau, Bool.not_true, Bool.false_eq_true,
    if_false, List.lookup, beq_self_eq_true, hconf, if_true] at hrun
  rw [hrun]
  exact ⟨rfl, rfl⟩

/-- **C1** counterexample: a branch moved by a concurrent writer makes the
batch commit fail with the same error value (`multiFailed`, the source's
generic `Failed to commit multiple files`) that a pure transport failure
produces — the conflict is not surfaced as a distinguished variant.  The
branch itself is left where the concurrent writer put it. -/
theorem C1_cex :
    (commitMultipleFiles cfgMain (setBranch "heads/main" 5) forkStore
      [⟨"a.md", "A", none⟩] "publish").1 = .error .multiFailed ∧
    (commitMultipleFiles cfgMain id forkStoreOffline
      [⟨"a.md", "A", none⟩] "publish").1 = .error .multiFailed ∧
    (commitMultipleFiles cfgMain (setBranch "heads/main" 5) forkStore
      [⟨"a.md", "A", none⟩] "publish").2.1.branches = [("heads/main", 5)] :=
  ⟨rfl, rfl, rfl⟩

/-- **C2** counterexample: `commitMultipleFiles` applied to the empty batch
does not reject it: it succeeds, creates an (empty) commit, advances the
branch pointer, and issues tree/commit/ref-update store operations. -/
theorem C2_cex :
    (commitMultipleFiles cfgMain id baseStore [] "publish").1 = .ok () ∧
    (commitMultipleFiles cfgMain id baseStore [] "publish").2.1.branches =
      [("heads/main", 12)] ∧
    (commitMultipleFiles cfgMain id baseStore [] "publish").2.2 =
      [.refGet "heads/main", .commitGet 0, .treeCreate 10 [],
       .commitCreate "publish" 11 [0], .refUpdate "heads/main" 12] :=
  ⟨rfl, rfl, rfl⟩

/-- **C2 (amended).** The empty batch is rejected with HTTP 400 by the
publish route handler before any store call; `commitMultipleFiles` itself
performs no emptiness check and, invoked directly with `[]` on a healthy
store, succeeds, creating an empty commit (its tree is the unchanged head
tree) and advancing the branch pointer to it. -/
theorem C2_amended (env : EnvVars) (dir : Option String) (s : Store) :
    publishPOST env (some []) dir s = ⟨400, s, []⟩ ∧
    publishPOST env none dir s = ⟨400, s, []⟩ ∧
    (∀ (cfg : GitHubConfig) (message : String) (h0 : Nat) (c0 : CommitObj)
        (baseEntries : List TreeEntry),
      s.online = true → s.authOk = true →
      s.branches.lookup ("heads/" ++ cfg.branchName) = some h0 →
      s.commits.lookup h0 = some c0 →
      s.trees.lookup c0.tree = some baseEntries →
      h0 ≠ s.nextId + 1 →
      s.commits.lookup (s.nextId + 1) = none →
      (commitMultipleFiles cfg id s [] message).1 = .ok () ∧
      (commitMultipleFiles cfg id s [] message).2.1.branches =
        ("heads/" ++ cfg.branchName, s.nextId + 1) ::
          s.branches.filter (fun b => b.1 ≠ "heads/" ++ cfg.branchName)) := by
  refine ⟨rfl, rfl, ?_⟩
  intro cfg message h0 c0 baseEntries hon hau href hcom htree hne hcfresh
  have hlook : (s.commits ++
      [(s.nextId + 1, (⟨s.nextId, [h0]⟩ : CommitObj))]).lookup (s.nextId + 1) =
      some ⟨s.nextId, [h0]⟩ := by
    rw [lookup_append_of_none _ _ _ hcfresh]
    exact lookup_singleton _ _
  have hanc : isAncestor (s.commits ++ [(s.nextId + 1, ⟨s.nextId, [h0]⟩)])
      ((s.commits ++ [(s.nextId + 1, (⟨s.nextId, [h0]⟩ : CommitObj))]).length + 1)
      h0 (s.nextId + 1) = true := by
    rw [List.length_append, List.length_singleton]
    exact isAncestor_parent_step _ h0 _ _ s.commits.length hne hlook
  have hrun := commitMultipleFiles_run cfg id s [] message h0 c0 baseEntries
    hon hau href hcom htree
  simp only [List.length_nil, Nat.add_zero, blobEntries, blobPairs,
    List.append_nil, List.map_nil, List.foldl_nil] at hrun
  dsimp only [id] at hrun
  simp only [updateRef, Store.check, hon, hau, Bool.not_true, Bool.false_eq_true,
    if_false, href, hanc, eq_self_iff_true, if_true] at hrun
  rw [hrun]
  exact ⟨rfl, rfl⟩

/-- **C2** witness: the route rejection and the service-side empty commit,
both at concrete inputs. -/
theorem C2_witness :
    publishPOST badTokenEnv (some []) none emptyStore = ⟨400, emptyStore, []⟩ ∧
    (commitMultipleFiles cfgMain id baseStore [] "publish").1 = .ok () := by
  refine ⟨(C2_amended badTokenEnv none emptyStore).1, ?_⟩
  exact ((C2_amended badTokenEnv none baseStore).2.2 cfgMain "publish" 0 ⟨10, []⟩ []
    (by decide) (by decide) (by decide) (by decide) (by decide) (by decide)
    (by decide)).1

theorem createBlobs_proj (files₁ files₂ : List GitHubFile)
    (h : files₁.map (fun f => (f.name, f.content)) =
         files₂.map (fun f => (f.name, f.content))) :
    ∀ s, createBlobs s files₁ = createBlobs s files₂ := by
  induction files₁ generalizing files₂ with
  | nil =>
      cases files₂ with
      | nil => intro s; rfl
      | cons g r => simp at h
  | cons f rest ih =>
      cases files₂ with
      | nil => simp at h
      | cons g rest₂ =>
          simp only [List.map_cons, List.cons.injEq, Prod.mk.injEq] at h
          obtain ⟨⟨hn, hc⟩, hrest⟩ := h
          intro s
          rw [createBlobs, createBlobs, hn, hc]
          simp only [ih rest₂ hrest]

/-- **C8.** The outcome of `commitMultipleFiles` is independent of the
per-file `sha` fields: two batches agreeing on names and contents produce
identical results — identical store operations, identical final store,
identical return value — under any store and any interference.  Batch mode
never re-verifies per-file concurrency tokens; a stale single-file token is
ignored and the last writer to reach the ref update wins. -/
theorem C8_thm (cfg : GitHubConfig) (interfere : Store → Store) (s : Store)
    (files₁ files₂ : List GitHubFile) (message : String)
    (h : files₁.map (fun f => (f.name, f.content)) =
         files₂.map (fun f => (f.name, f.content))) :
    commitMultipleFiles cfg interfere s files₁ message =
      commitMultipleFiles cfg interfere s files₂ message := by
  rw [commitMultipleFiles, commitMultipleFiles]
  dsimp only
  simp only [createBlobs_proj files₁ files₂ h]

/-- **C8** witness: a batch carrying a stale per-file token commits exactly
as the same batch with no token. -/
theorem C8_witness :
    commitMultipleFiles cfgMain id baseStore [⟨"a.md", "A", some "stale"⟩] "publish" =
      commitMultipleFiles cfgMain id baseStore [⟨"a.md", "A", none⟩] "publish" :=
  C8_thm cfgMain id baseStore [⟨"a.md", "A", some "stale"⟩] [⟨"a.md", "A", none⟩]
    "publish" (by decide)

/-- **C4 (amended).** `commitFile` first reads the current sha for the path;
absence is treated as a create (the write carries no token) and an existing
file's sha is carried as the write's token; exactly one write is issued (no
retry).  When a concurrent writer changes the file between the read and the
write, the store rejects the mismatched token, but the failure is surfaced as
the one generic `commitFailed` error — the method's only failure shape — not
as a distinguished `ConcurrencyConflict` variant. -/
theorem C4_amended (cfg : GitHubConfig) (s : Store) (p content message : String) :
    (s.online = true → s.authOk = true → s.contents.lookup p = none →
      commitFile cfg id s p content message =
        (.ok (),
         { s with contents := setContent s.contents p (.file content (toString s.nextId)),
                  nextId := s.nextId + 1 },
         [.contentGet p, .filePut p message content none])) ∧
    (∀ old tok, s.online = true → s.authOk = true →
      s.contents.lookup p = some (.file old tok) →
      commitFile cfg id s p content message =
        (.ok (),
         { s with contents := setContent s.contents p (.file content (toString s.nextId)),
                  nextId := s.nextId + 1 },
         [.contentGet p, .filePut p message content (some tok)])) ∧
    (∀ old tok c2 tok2, s.online = true → s.authOk = true →
      s.contents.lookup p = some (.file old tok) → tok2 ≠ tok →
      commitFile cfg (setFile p c2 tok2) s p content message =
        (.error (.commitFailed p), setFile p c2 tok2 s,
         [.contentGet p, .filePut p message content (some tok)])) := by
  refine ⟨?_, ?_, ?_⟩
  · intro hon hau hl
    simp only [commitFile, getFileSha, getContent, putFileContents, Store.check,
      hon, hau, Bool.not_true, Bool.false_eq_true, if_false, hl, id]
  · intro old tok hon hau hl
    simp only [commitFile, getFileSha, getContent, putFileContents, Store.check,
      hon, hau, Bool.not_true, Bool.false_eq_true, if_false, hl, id,
      eq_self_iff_true, if_true]
  · intro old tok c2 tok2 hon hau hl htok
    simp only [commitFile, getFileSha, getContent, putFileContents, Store.check,
      setFile, setContent, hon, hau, Bool.not_true, Bool.false_eq_true, if_false,
      hl, id, List.lookup, beq_self_eq_true, if_neg (Ne.symm htok)]

/-- **C4** counterexample: the store's compare-and-swap rejection of a stale
token surfaces as the same error value (`commitFailed`, the source's generic
`Failed to commit file: <path>`) that a pure transport failure produces — the
conflict is not a distinguished variant. -/
theorem C4_cex :
    (commitFile cfgMain (setFile "p.md" "other" "t2") fileStore
      "p.md" "new" "update").1 = .error (.commitFailed "p.md") ∧
    (commitFile cfgMain id fileStoreOffline "p.md" "new" "update").1 =
      .error (.commitFailed "p.md") :=
  ⟨rfl, rfl⟩

/-- **C4** witness: the create path and the conflict path at concrete
inputs. -/
theorem C4_witness :
    (commitFile cfgMain id emptyStore "p.md" "hello" "update").1 = .ok () ∧
    (commitFile cfgMain (setFile "p.md" "other" "t9") fileStore
      "p.md" "new" "update").1 = .error (.commitFailed "p.md") := by
  constructor
  · have h := (C4_amended cfgMain emptyStore "p.md" "hello" "update").1 rfl rfl rfl
    rw [h]
  · have h := (C4_amended cfgMain fileStore "p.md" "new" "update").2.2
      "old" "t1" "other" "t9" rfl rfl rfl (by decide)
    rw [h]

/-- **C5 (amended).** `fetchMarkdownFile` fails when the path is absent, when
the path is a directory, and on transport or authentication failure — but all
of these surface as the single generic `fetchFailed` error (the source's
`Failed to fetch file: <path>`, mapped to 500 by the handlers); the failure
classes are not distinguishable by the caller.  On a healthy store with the
path present as a file it returns the content. -/
theorem C5_amended (cfg : GitHubConfig) (s : Store) (p : String) :
    (s.online = true → s.authOk = true → s.contents.lookup p = none →
      fetchMarkdownFile cfg s p = .error (.fetchFailed p)) ∧
    (∀ items, s.online = true → s.authOk = true →
      s.contents.lookup p = some (.dir items) →
      fetchMarkdownFile cfg s p = .error (.fetchFailed p)) ∧
    (s.online = false → fetchMarkdownFile cfg s p = .error (.fetchFailed p)) ∧
    (s.online = true → s.authOk = false →
      fetchMarkdownFile cfg s p = .error (.fetchFailed p)) ∧
    (∀ content sha, s.online = true → s.authOk = true →
      s.contents.lookup p = some (.file content sha) →
      fetchMarkdownFile cfg s p = .ok content) := by
  refine ⟨?_, ?_, ?_, ?_, ?_⟩
  · intro hon hau hl
    simp only [fetchMarkdownFile, getContent, Store.check, hon, hau, Bool.not_true,
      Bool.false_eq_true, if_false, hl]
  · intro items hon hau hl
    simp only [fetchMarkdownFile, getContent, Store.check, hon, hau, Bool.not_true,
      Bool.false_eq_true, if_false, hl]
  · intro hoff
    simp only [fetchMarkdownFile, getContent, Store.check, hoff, Bool.not_false,
      if_true]
  · intro hon hau
    simp only [fetchMarkdownFile, getContent, Store.check, hon, hau, Bool.not_true,
      Bool.not_false, Bool.false_eq_true, if_false, if_true]
  · intro content sha hon hau hl
    simp only [fetchMarkdownFile, getContent, Store.check, hon, hau, Bool.not_true,
      Bool.false_eq_true, if_false, hl]

/-- **C5** counterexample: a missing path and a transport failure produce the
identical error value — `NotFound` and `StoreUnavailable` are not
distinguishable in the source, which collapses every failure into the generic
`Failed to fetch file: <path>`. -/
theorem C5_cex :
    fetchMarkdownFile cfgMain emptyStore "p.md" = .error (.fetchFailed "p.md") ∧
    fetchMarkdownFile cfgMain fileStoreOffline "p.md" =
      .error (.fetchFailed "p.md") :=
  ⟨rfl, rfl⟩

/-- **C5** witness: the failure and success cases at concrete inputs. -/
theorem C5_witness :
    fetchMarkdownFile cfgMain emptyStore "p.md" = .error (.fetchFailed "p.md") ∧
    fetchMarkdownFile cfgMain fileStore "p.md" = .ok "old" := by
  constructor
  · exact (C5_amended cfgMain emptyStore "p.md").1 rfl rfl rfl
  · exact (C5_amended cfgMain fileStore "p.md").2.2.2.2 "old" "t1" rfl rfl rfl

/-- **C7 (amended).** `listMarkdownFiles` returns exactly the paths of the
directory entries that are files with names ending in `.md`, in listing
order, and returns `[]` (not an error) for a nonexistent directory — but a
transport or authentication failure also yields `[]` rather than propagating
as a distinguishable `StoreUnavailable` failure. -/
theorem C7_amended (cfg : GitHubConfig) (s : Store) (d : String) :
    (∀ items, s.online = true → s.authOk = true →
      s.contents.lookup d = some (.dir items) →
      listMarkdownFiles cfg s d =
        (items.filter (fun i => i.itemType = "file" && strEndsWith i.name ".md")).map
          (fun i => i.path)) ∧
    (s.online = true → s.authOk = true → s.contents.lookup d = none →
      listMarkdownFiles cfg s d = []) ∧
    (s.online = false → listMarkdownFiles cfg s d = []) ∧
    (s.online = true → s.authOk = false → listMarkdownFiles cfg s d = []) := by
  refine ⟨?_, ?_, ?_, ?_⟩
  · intro items hon hau hl
    simp only [listMarkdownFiles, getContent, Store.check, hon, hau, Bool.not_true,
      Bool.false_eq_true, if_false, hl]
  · intro hon hau hl
    simp only [listMarkdownFiles, getContent, Store.check, hon, hau, Bool.not_true,
      Bool.false_eq_true, if_false, hl]
  · intro hoff
    simp only [listMarkdownFiles, getContent, Store.check, hoff, Bool.not_false,
      if_true]
  · intro hon hau
    simp only [listMarkdownFiles, getContent, Store.check, hon, hau, Bool.not_true,
      Bool.not_false, Bool.false_eq_true, if_false, if_true]

/-- **C7** counterexample: the same directory listing that yields the two
`.md` paths online yields `[]` when the transport is down — a transport
failure is swallowed into the empty list, not propagated as
`StoreUnavailable`, and is indistinguishable from a nonexistent directory. -/
theorem C7_cex :
    listMarkdownFiles cfgMain listStore "content" =
      ["content/a.md", "content/b.md"] ∧
    listMarkdownFiles cfgMain listStoreOffline "content" = [] ∧
    listMarkdownFiles cfgMain emptyStore "content" = [] := by
  refine ⟨?_, rfl, rfl⟩
  decide

/-- **C7** witness: the spec's own example, at concrete inputs. -/
theorem C7_witness :
    listMarkdownFiles cfgMain listStore "content" =
      ["content/a.md", "content/b.md"] ∧
    listMarkdownFiles cfgMain emptyStore "nope" = [] := by
  constructor
  · have h := (C7_amended cfgMain listStore "content").1
      [⟨"a.md", "content/a.md", "file"⟩, ⟨"b.md", "content/b.md", "file"⟩,
       ⟨"notes.txt", "content/notes.txt", "file"⟩] rfl rfl rfl
    rw [h]
    decide
  · exact (C7_amended cfgMain emptyStore "nope").2.1 rfl rfl rfl

theorem allowedAttrs_safe :
    ∀ a ∈ allowedAttrs, strStartsWith a "on" = false ∧ strStartsWith a "data-" = false := by
  decide

theorem allowedTags_no_script : ("script" : String) ∉ allowedTags := by decide

theorem sanitary_flat (l : List Html)
    (H : ∀ c ∈ l, (sanitizeNode c).all sanitaryNode = true) :
    (l.attach.flatMap fun c => sanitizeNode c.1).all sanitaryNode = true := by
  simp only [List.all_eq_true] at *
  intro x hx
  rw [List.mem_flatMap] at hx
  obtain ⟨⟨c, hc⟩, _, hxc⟩ := hx
  exact H c hc x hxc

theorem sanitizeNode_sanitary (h : Html) : (sanitizeNode h).all sanitaryNode = true := by
  induction h using sanitizeNode.induct with
  | case1 s =>
      rw [sanitizeNode]
      simp [sanitaryNode]
  | case2 t attrs cs htag ih =>
      rw [sanitizeNode]
      simp only [if_pos htag, List.all_cons, List.all_nil, Bool.and_true]
      rw [sanitaryNode]
      simp only [Bool.and_eq_true]
      refine ⟨⟨⟨decide_eq_true htag, ?_⟩, ?_⟩, ?_⟩
      · rw [bne_iff_ne]
        intro hts
        exact allowedTags_no_script (hts ▸ htag)
      · simp only [List.all_eq_true]
        intro a ha
        have hmem := (List.mem_filter.1 ha).2
        have hmem2 : a.1 ∈ allowedAttrs := of_decide_eq_true hmem
        obtain ⟨h1, h2⟩ := allowedAttrs_safe a.1 hmem2
        simp only [Bool.and_eq_true]
        refine ⟨⟨hmem, ?_⟩, ?_⟩
        · rw [h1]; rfl
        · rw [h2]; rfl
      · simp only [List.all_eq_true, List.mem_attach, true_implies, Subtype.forall]
        intro x hx
        have hs := sanitary_flat cs (fun c hc => ih ⟨c, hc⟩)
        simp only [List.all_eq_true] at hs
        exact hs x hx
  | case3 t attrs cs h1 h2 =>
      rw [sanitizeNode]
      rw [if_neg h1, if_pos h2]
      rfl
  | case4 t attrs cs h1 h2 ih =>
      rw [sanitizeNode]
      rw [if_neg h1, if_neg h2]
      exact sanitary_flat cs (fun c hc => ih ⟨c, hc⟩)

/-- **C3.** For every input string and for any output the structural parser
may produce, the rendered HTML is the sanitizer's output (sanitization is
applied unconditionally — `markdownToHTML` has no option to skip it), and
every node of that output is sanitary: its tag is on the fixed tag
allow-list (hence no `script` element), and its attributes are on the fixed
attribute allow-list (hence no `on*` event-handler attribute and no `data-*`
attribute); everything outside the allow-lists is dropped by the sanitizer,
never kept. -/
theorem C3_thm (parse : String → List Html) (rawMarkup : String) :
    markdownToHTML parse rawMarkup = sanitizeHTML (parse rawMarkup) ∧
    (markdownToHTML parse rawMarkup).all sanitaryNode = true := by
  refine ⟨rfl, ?_⟩
  rw [markdownToHTML, sanitizeHTML]
  simp only [List.all_eq_true]
  intro x hx
  rw [List.mem_flatMap] at hx
  obtain ⟨c, _, hxc⟩ := hx
  have hs := sanitizeNode_sanitary c
  simp only [List.all_eq_true] at hs
  exact hs x hxc

theorem jsSplit_append (sep : Char) (l1 rest : List Char) (h : sep ∉ l1) :
    jsSplit sep (l1 ++ sep :: rest) = l1 :: jsSplit sep rest := by
  induction l1 with
  | nil => simp [jsSplit]
  | cons c l ih =>
      rw [List.cons_append, jsSplit]
      have hc : ¬(c = sep) := fun hh => h (hh ▸ List.mem_cons_self c l)
      rw [if_neg hc, ih (fun hm => h (List.mem_cons_of_mem c hm))]

theorem jsSplit_no_sep (sep : Char) (l : List Char) (h : sep ∉ l) :
    jsSplit sep l = [l] := by
  induction l with
  | nil => rfl
  | cons c r ih =>
      rw [jsSplit]
      have hc : ¬(c = sep) := fun hh => h (hh ▸ List.mem_cons_self c r)
      rw [if_neg hc, ih (fun hm => h (List.mem_cons_of_mem c hm))]

theorem trimL_eq_self_parts (l : List Char) (h : trimL l = l) :
    l.dropWhile jsWhitespace = l ∧ l.reverse.dropWhile jsWhitespace = l.reverse := by
  have hlen : (trimL l).length = l.length := by rw [h]
  rw [trimL, List.length_reverse] at hlen
  have h1 : ((l.dropWhile jsWhitespace).reverse.dropWhile jsWhitespace).length ≤
      (l.dropWhile jsWhitespace).reverse.length :=
    (List.dropWhile_suffix _).sublist.length_le
  rw [List.length_reverse] at h1
  have h2 : (l.dropWhile jsWhitespace).length ≤ l.length :=
    (List.dropWhile_suffix _).sublist.length_le
  have e1 : (l.dropWhile jsWhitespace).length = l.length := by omega
  have hfront : l.dropWhile jsWhitespace = l :=
    (List.dropWhile_suffix _).sublist.eq_of_length e1
  refine ⟨hfront, ?_⟩
  rw [hfront] at hlen
  have e2 : (l.reverse.dropWhile jsWhitespace).length = l.reverse.length := by
    rw [List.length_reverse]
    exact hlen
  exact (List.dropWhile_suffix _).sublist.eq_of_length e2

theorem head_not_ws (c : Char) (rest : List Char)
    (h : (c :: rest).dropWhile jsWhitespace = c :: rest) : jsWhitespace c = false := by
  cases hcw : jsWhitespace c with
  | false => rfl
  | true =>
      rw [List.dropWhile_cons, hcw, if_pos rfl] at h
      have hlc := congrArg List.length h
      have hle : (rest.dropWhile jsWhitespace).length ≤ rest.length :=
        (List.dropWhile_suffix _).sublist.length_le
      simp only [List.length_cons] at hlc
      omega

theorem trimL_hash (T : List Char) (hne : T ≠ [])
    (hback : T.reverse.dropWhile jsWhitespace = T.reverse) :
    trimL ('#' :: ' ' :: T) = '#' :: ' ' :: T := by
  rw [trimL, List.dropWhile_cons]
  have h1 : jsWhitespace '#' = false := by decide
  rw [h1]
  simp only [Bool.false_eq_true, if_false]
  obtain ⟨c, r, hr⟩ : ∃ c r, T.reverse = c :: r := by
    cases hTr : T.reverse with
    | nil => exact absurd (List.reverse_eq_nil_iff.1 hTr) hne
    | cons c r => exact ⟨c, r, rfl⟩
  have hc : jsWhitespace c = false := by
    refine head_not_ws c r ?_
    rw [← hr]
    exact hback
  rw [List.reverse_cons, List.reverse_cons, hr, List.cons_append, List.cons_append,
    List.dropWhile_cons, hc]
  simp only [Bool.false_eq_true, if_false]
  rw [← List.cons_append, ← List.cons_append, ← hr]
  simp [List.reverse_append]

theorem find?_first {α : Type} (p : α → Bool) (pre post : List α) (ln : α)
    (hpre : ∀ l ∈ pre, p l = false) (hln : p ln = true) :
    (pre ++ ln :: post).find? p = some ln := by
  induction pre with
  | nil => exact List.find?_cons_of_pos post hln
  | cons a rest ih =>
      rw [List.cons_append, List.find?_cons_of_neg]
      · exact ih (fun l hl => hpre l (List.mem_cons_of_mem a hl))
      · simp [hpre a (List.mem_cons_self a rest)]

theorem fallback_pred_false (l : List Char)
    (h : trimL l = [] ∨ "---".data.isPrefixOf (trimL l) = true) :
    (decide (trimL l ≠ []) && !("---".data.isPrefixOf (trimL l))) = false := by
  rcases h with h | h
  · simp [h]
  · simp [h]

theorem fallback_pred_true (l : List Char) (h1 : trimL l ≠ [])
    (h2 : "---".data.isPrefixOf (trimL l) = false) :
    (decide (trimL l ≠ []) && !("---".data.isPrefixOf (trimL l))) = true := by
  simp [h1, h2]

/-- **C9.** The general contract of `extractMarkdownTitle`, for every input:
(1) whenever the input's lines split as `pre ++ ln :: post` with no line of
`pre` a top-level heading line (`trimmed.startsWith "# "`) and `ln` one, the
result is `ln`'s trimmed text after the marker — the first heading line wins
wherever it sits; (2) whenever no line is a heading line and the lines split
as `pre ++ ln :: post` with every line of `pre` blank or a `---` line and
`ln` neither, the result is `ln`'s trimmed text truncated to 100
characters — the first non-empty non-separator line; (3) whenever every line
is blank or a `---` line, the result is the fixed fallback literal
`Untitled`; and (4) in particular the round trip: for any trimmed nonempty
one-line title `T`, `extractMarkdownTitle` of `"# T"`, a blank line and a
body returns exactly `T`.  Every input falls under (1), (2) or (3), since
any line list splits around its first heading line, else around its first
non-blank non-separator line, else is all blank-or-separator. -/
theorem C9_thm :
    (∀ (s : String) (pre post : List (List Char)) (ln : List Char),
      jsSplit '\n' s.data = pre ++ ln :: post →
      (∀ l ∈ pre, "# ".data.isPrefixOf (trimL l) = false) →
      "# ".data.isPrefixOf (trimL ln) = true →
      extractMarkdownTitle s = String.mk (trimL ((trimL ln).drop 2))) ∧
    (∀ (s : String) (pre post : List (List Char)) (ln : List Char),
      jsSplit '\n' s.data = pre ++ ln :: post →
      (∀ l ∈ jsSplit '\n' s.data, "# ".data.isPrefixOf (trimL l) = false) →
      (∀ l ∈ pre, trimL l = [] ∨ "---".data.isPrefixOf (trimL l) = true) →
      trimL ln ≠ [] →
      "---".data.isPrefixOf (trimL ln) = false →
      extractMarkdownTitle s = String.mk ((trimL ln).take 100)) ∧
    (∀ s : String,
      (∀ l ∈ jsSplit '\n' s.data,
        "# ".data.isPrefixOf (trimL l) = false ∧
        (trimL l = [] ∨ "---".data.isPrefixOf (trimL l) = true)) →
      extractMarkdownTitle s = "Untitled") ∧
    (∀ T body : String, trimL T.data = T.data → T.data ≠ [] → '\n' ∉ T.data →
      extractMarkdownTitle ("# " ++ T ++ "\n\n" ++ body) = T) := by
  have hA : ∀ (s : String) (pre post : List (List Char)) (ln : List Char),
      jsSplit '\n' s.data = pre ++ ln :: post →
      (∀ l ∈ pre, "# ".data.isPrefixOf (trimL l) = false) →
      "# ".data.isPrefixOf (trimL ln) = true →
      extractMarkdownTitle s = String.mk (trimL ((trimL ln).drop 2)) := by
    intro s pre post ln hsplit hpre hln
    rw [extractMarkdownTitle, hsplit, extractTitleLines,
      find?_first _ pre post ln hpre hln]
  refine ⟨hA, ?_, ?_, ?_⟩
  · intro s pre post ln hsplit hnone hpre hln1 hln2
    rw [hsplit] at hnone
    rw [extractMarkdownTitle, hsplit, extractTitleLines]
    have hn : (pre ++ ln :: post).find?
        (fun l => "# ".data.isPrefixOf (trimL l)) = none := by
      rw [List.find?_eq_none]
      intro x hx
      rw [hnone x hx]
      exact Bool.false_ne_true
    rw [hn]
    rw [find?_first _ pre post ln
      (fun l hl => fallback_pred_false l (hpre l hl))
      (fallback_pred_true ln hln1 hln2)]
  · intro s hall
    rw [extractMarkdownTitle, extractTitleLines]
    have hn1 : (jsSplit '\n' s.data).find?
        (fun l => "# ".data.isPrefixOf (trimL l)) = none := by
      rw [List.find?_eq_none]
      intro x hx
      rw [(hall x hx).1]
      exact Bool.false_ne_true
    have hn2 : (jsSplit '\n' s.data).find?
        (fun l => decide (trimL l ≠ []) && !("---".data.isPrefixOf (trimL l))) =
        none := by
      rw [List.find?_eq_none]
      intro x hx
      rw [fallback_pred_false x (hall x hx).2]
      exact Bool.false_ne_true
    rw [hn1, hn2]
  · intro T body htrim hne hnl
    have hnotin : '\n' ∉ '#' :: ' ' :: T.data := by
      simp only [List.mem_cons]
      rintro (heq | heq | hm)
      · exact absurd heq (by decide)
      · exact absurd heq (by decide)
      · exact hnl hm
    have hsplit : jsSplit '\n' ("# " ++ T ++ "\n\n" ++ body).data =
        ('#' :: ' ' :: T.data) :: ([] :: jsSplit '\n' body.data) := by
      have hdata : ("# " ++ T ++ "\n\n" ++ body).data =
          ('#' :: ' ' :: T.data) ++ '\n' :: ('\n' :: body.data) := by
        simp [String.data_append]
      rw [hdata, jsSplit_append '\n' _ _ hnotin]
      rw [jsSplit]
      simp
    have htr0 : trimL ('#' :: ' ' :: T.data) = '#' :: ' ' :: T.data :=
      trimL_hash T.data hne (trimL_eq_self_parts T.data htrim).2
    have hres := hA ("# " ++ T ++ "\n\n" ++ body) []
      ([] :: jsSplit '\n' body.data) ('#' :: ' ' :: T.data) hsplit
      (fun l hl => absurd hl (List.not_mem_nil l))
      (by rw [htr0]
          show (['#', ' '].isPrefixOf ('#' :: ' ' :: T.data)) = true
          simp [List.isPrefixOf])
    rw [hres, htr0]
    show String.mk (trimL T.data) = T
    rw [htrim]

/-- **C9** witness: a heading preceded by other lines, a first non-empty
non-separator line among blank lines, an all-separator input, and the round
trip, each at concrete inputs. -/
theorem C9_witness :
    extractMarkdownTitle "intro\n# Title\nbody" = "Title" ∧
    extractMarkdownTitle "\n\nfoo\nbar" = "foo" ∧
    extractMarkdownTitle "---\n   \n" = "Untitled" ∧
    extractMarkdownTitle ("# " ++ "Hello" ++ "\n\n" ++ "body text") = "Hello" := by
  refine ⟨?_, ?_, ?_, ?_⟩
  · have h := C9_thm.1 "intro\n# Title\nbody" ["intro".data]
      ["body".data] "# Title".data (by decide) (by decide) (by decide)
    rw [h]
    decide
  · have h := C9_thm.2.1 "\n\nfoo\nbar" [[], []] ["bar".data] "foo".data
      (by decide) (by decide) (by decide) (by decide) (by decide)
    rw [h]
    decide
  · exact C9_thm.2.2.1 "---\n   \n" (by decide)
  · exact C9_thm.2.2.2 "Hello" "body text" (by decide) (by decide) (by decide)

/-- **C10.** For every environment whose token, owner and repo are all
non-empty but whose token starts with neither `ghp_` nor `github_pat_`,
validation reports exactly the invalid-token error, `getValidatedConfig`
throws, and every API route (list GET, publish POST with a non-empty drafts
array, publish PUT) answers 500 with no store operation issued — such a token
never reaches a store call. -/
theorem C10_thm (env : EnvVars)
    (ht : (getConfig env).token ≠ "")
    (ho : (getConfig env).owner ≠ "")
    (hr : (getConfig env).repo ≠ "")
    (h1 : strStartsWith (getConfig env).token "ghp_" = false)
    (h2 : strStartsWith (getConfig env).token "github_pat_" = false) :
    validateConfig (getConfig env) =
      ["GITHUB_TOKEN appears to be invalid (should start with ghp_ or github_pat_)"] ∧
    (∃ msg, getValidatedConfig env = .error msg) ∧
    (∀ dir s, listGET env dir s = ⟨500, s, []⟩) ∧
    (∀ ds dir s, ds ≠ [] → publishPOST env (some ds) dir s = ⟨500, s, []⟩) ∧
    (∀ d dir fp s, publishPUT env (some d) dir fp s = ⟨500, s, []⟩) := by
  have hv : validateConfig (getConfig env) =
      ["GITHUB_TOKEN appears to be invalid (should start with ghp_ or github_pat_)"] := by
    rw [validateConfig]
    rw [if_neg ht, if_neg ho, if_neg hr,
      if_pos ⟨ht, by simp [h1], by simp [h2]⟩]
    rfl
  have hgm : getValidatedConfig env =
      .error ("Configuration validation failed:\n" ++ String.intercalate "\n"
        ["GITHUB_TOKEN appears to be invalid (should start with ghp_ or github_pat_)"]) := by
    rw [getValidatedConfig]
    rw [hv, if_pos (by simp)]
  refine ⟨hv, ⟨_, hgm⟩, ?_, ?_, ?_⟩
  · intro dir s
    rw [listGET]
    dsimp only
    rw [hgm]
  · intro ds dir s hds
    rw [publishPOST]
    dsimp only
    rw [if_neg (fun hh => hds (List.length_eq_zero.mp hh))]
    rw [hgm]
  · intro d dir fp s
    rw [publishPUT]
    dsimp only
    rw [hgm]

/-- **C10** witness: a `gho_`-prefixed token with owner and repo present is
rejected by every route at concrete inputs. -/
theorem C10_witness :
    (∃ msg, getValidatedConfig badTokenEnv = .error msg) ∧
    listGET badTokenEnv (some "content") emptyStore = ⟨500, emptyStore, []⟩ ∧
    publishPOST badTokenEnv
      (some [⟨"1", "T", "B", "2024-01-01T00:00:00Z", "2024-01-01T00:00:00Z",
        "2024-01-01"⟩]) none emptyStore = ⟨500, emptyStore, []⟩ ∧
    publishPUT badTokenEnv
      (some ⟨"1", "T", "B", "2024-01-01T00:00:00Z", "2024-01-01T00:00:00Z",
        "2024-01-01"⟩) none none emptyStore = ⟨500, emptyStore, []⟩ := by
  obtain ⟨hv, hA, hB, hC, hD⟩ := C10_thm badTokenEnv (by decide) (by decide)
    (by decide) (by decide) (by decide)
  exact ⟨hA, hB (some "content") emptyStore,
    hC _ none emptyStore (by decide), hD _ none none emptyStore⟩

/-- **C1** witness: the amended statement at a concrete store where a
concurrent writer repointed `main` at the unrelated root commit `5`. -/
theorem C1_witness :
    (commitMultipleFiles cfgMain (setBranch ("heads/" ++ cfgMain.branchName) 5)
      forkStore [⟨"a.md", "A", none⟩] "publish").1 = .error .multiFailed :=
  (C1_amended cfgMain forkStore [⟨"a.md", "A", none⟩] "publish" 0 5 ⟨10, []⟩ []
    (by decide) (by decide) (by decide) (by decide) (by decide) (by decide)).1
